import Mathlib

/-!
Verification of the BLS reconciliation engine
(`src/Task_1_sync_bls_files.py`, mirrored in
`src/lambda_functions/sync_and_fetch.py`).

The Python module is shallowly embedded here:

* `get_remote_files` is modelled as a recursion over the remaining retry
  budget; the network is an oracle `env : Nat → FetchResult` giving the
  outcome of each HTTP attempt, and the observable behaviour (attempts,
  sleeps, warm-up requests) is returned as an event trace.
* `get_s3_files` takes the outcome of `list_objects_v2` as an
  `Option Store` (`none` models the exception / missing-Contents branch).
* `file_needs_update` takes the outcome of the check download as an
  `Option Bytes` (`none` models a non-200 status or a request exception,
  which the source treats identically) and the MD5 digest function as an
  explicit parameter.
* `sync_files` (driver) is split into `sync_pass` — the body after the
  remote listing — and the composition with `get_remote_files`.  Per-file
  downloads are oracles `f1` (first fetch of a URL: the CREATE download or
  the check download) and `f2` (the re-download performed when the check
  download failed).  The store is a key→ETag association list; `put`
  records the MD5 hex digest as the new tag, which is the source's own
  documented assumption ("S3 ETag for single-part uploads is the MD5 hash
  of the file content").  Console prints other than the final completion
  line are not modelled; the completion line is kept as an event because
  it marks a completed pass.
-/

set_option maxHeartbeats 1000000

namespace BlsSync

/-- Payload bytes of a remote file, modelled as a list of byte values. -/
abbrev Bytes := List Nat

/-- Destination store contents: an association list from object key to the
integrity tag (ETag) the store reports for that key.  `list_objects_v2`
returns each key at most once, so reachable listings have duplicate-free
keys; theorems that need this carry it as a hypothesis. -/
abbrev Store := List (String × String)

/-- Python's `s.strip('"')`: remove every leading and every trailing
quote character. -/
def stripQuotes (s : String) : String :=
  String.mk ((((s.toList).dropWhile (fun c => c == '"')).reverse.dropWhile
    (fun c => c == '"')).reverse)

/-- First-match lookup of a key in the store association list. -/
def lookupKey : Store → String → Option String
  | [], _ => none
  | (k', t) :: rest, k => if k' = k then some t else lookupKey rest k

/-- Remove every entry with the given key (`s3.delete_object`). -/
def delKey (st : Store) (k : String) : Store :=
  st.filter (fun p => p.1 != k)

/-- Overwrite the entry for a key (`s3.put_object`); the store assigns the
MD5 hex digest of the body as the new ETag, the assumption documented in
the source's `file_needs_update` docstring for single-part uploads. -/
def putKey (st : Store) (k : String) (t : String) : Store :=
  delKey st k ++ [(k, t)]

/-- Keys of a store listing, in listing order. -/
def keysOf (st : Store) : List String :=
  st.map Prod.fst

/-- Outcome of one HTTP attempt against the directory URL: a completed
response with its status code and the anchor elements parsed from the
body (each anchor's optional `href`), or a `requests` exception. -/
inductive FetchResult
  | resp (status : Nat) (anchors : List (Option String))
  | exc
deriving DecidableEq

/-- Observable events of the remote lister: an HTTP attempt against the
directory URL, a `time.sleep`, or the root-page warm-up request. -/
inductive LEvent
  | attempt (n : Nat)
  | sleep (secs : Nat)
  | warmup
deriving DecidableEq

/-- Python's `file_name.endswith('/')`: the last character is a slash. -/
def endsWithSlash (s : String) : Bool :=
  s.toList.getLast? == some '/'

/-- Anchor filtering of `get_remote_files`: keep each present `href` that
is truthy (non-empty), is not the parent link `../`, and does not end in
`/`. -/
def parse_links (anchors : List (Option String)) : List String :=
  (anchors.filterMap id).filter
    (fun f => !(f == "") && !(f == "../") && !(endsWithSlash f))

/-- Retry loop of `get_remote_files`.  `attempt` is the 0-based index of
the next attempt, `r` the number of attempts still allowed, `delay` the
current `retry_delay`.  On 403 with attempts left: sleep, warm up against
the site root, double the delay, retry.  On any other non-200 status:
return `[]` immediately.  On a request exception with attempts left:
sleep with the current delay (no warm-up, no doubling) and retry. -/
def get_remote_files_go (env : Nat → FetchResult) :
    Nat → Nat → Nat → List String × List LEvent
  | _, 0, _ => ([], [])
  | attempt, r + 1, delay =>
    match env attempt with
    | FetchResult.resp s anchors =>
        if s = 200 then
          (parse_links anchors, [LEvent.attempt attempt])
        else if s = 403 then
          if r = 0 then ([], [LEvent.attempt attempt])
          else
            let q := get_remote_files_go env (attempt + 1) r (delay * 2)
            (q.1, LEvent.attempt attempt :: LEvent.sleep delay ::
              LEvent.warmup :: q.2)
        else ([], [LEvent.attempt attempt])
    | FetchResult.exc =>
        if r = 0 then ([], [LEvent.attempt attempt])
        else
          let q := get_remote_files_go env (attempt + 1) r delay
          (q.1, LEvent.attempt attempt :: LEvent.sleep delay :: q.2)

/-- `get_remote_files(max_retries, retry_delay)`: the source's defaults
are `max_retries = 3`, `retry_delay = 5`. -/
def get_remote_files (env : Nat → FetchResult) (max_retries retry_delay : Nat) :
    List String × List LEvent :=
  get_remote_files_go env 0 max_retries retry_delay

/-- `get_s3_files`: on a successful listing, build the key→ETag mapping
with surrounding quotes stripped from each ETag; on an exception or a
listing without `Contents` (`none`), return the empty mapping. -/
def get_s3_files (listing : Option Store) : Store :=
  match listing with
  | some objs => objs.map (fun p => (p.1, stripQuotes p.2))
  | none => []

/-- `file_needs_update`: `dl` is the outcome of the check download
(`none` models a non-200 response or an exception, treated identically by
the source).  On success, compare the MD5 digest of the downloaded bytes
with the quote-stripped ETag; return the flag together with the bytes when
an update is needed, so the caller can reuse them. -/
def file_needs_update (md5 : Bytes → String) (dl : Option Bytes)
    (s3_etag : String) : Bool × Option Bytes :=
  match dl with
  | some content =>
      let needs : Bool := !(md5 content == stripQuotes s3_etag)
      (needs, if needs then some content else none)
  | none => (true, none)

/-- The per-key action a reconciliation pass decides on. -/
inductive Action
  | create (key : String)
  | update (key : String)
  | skip (key : String)
  | delete (key : String)
deriving DecidableEq

/-- Key an action refers to. -/
def Action.key : Action → String
  | .create k => k
  | .update k => k
  | .skip k => k
  | .delete k => k

/-- Whether the action is a DELETE. -/
def Action.isDelete : Action → Bool
  | .delete _ => true
  | _ => false

/-- Whether the action is a SKIP. -/
def Action.isSkip : Action → Bool
  | .skip _ => true
  | _ => false

/-- Whether the action is a CREATE. -/
def Action.isCreate : Action → Bool
  | .create _ => true
  | _ => false

/-- Observable effects of one reconciliation pass: the store inventory
call, a per-file HTTP download attempt, a store upload, a store delete,
and the final completion message of a completed pass. -/
inductive Effect
  | listStore
  | download (name : String)
  | put (key : String) (body : Bytes)
  | del (key : String)
  | printDone
deriving DecidableEq

/-- Whether the effect is a store delete. -/
def Effect.isDel : Effect → Bool
  | .del _ => true
  | _ => false

/-- Body of the per-remote-file loop of `sync_files`: a name absent from
the inventory snapshot is a new file (download, then upload on success);
a present name goes through `file_needs_update`, reusing the downloaded
bytes on a mismatch and re-downloading when the check download failed. -/
def sync_step (md5 : Bytes → String) (snap : Store)
    (f1 f2 : String → Option Bytes) (st : Store) (name : String) :
    Store × Action × List Effect :=
  match lookupKey snap name with
  | none =>
      match f1 name with
      | some c => (putKey st name (md5 c), Action.create name,
          [Effect.download name, Effect.put name c])
      | none => (st, Action.create name, [Effect.download name])
  | some etag =>
      match file_needs_update md5 (f1 name) etag with
      | (false, _) => (st, Action.skip name, [Effect.download name])
      | (true, some c) => (putKey st name (md5 c), Action.update name,
          [Effect.download name, Effect.put name c])
      | (true, none) =>
          match f2 name with
          | some c => (putKey st name (md5 c), Action.update name,
              [Effect.download name, Effect.download name, Effect.put name c])
          | none => (st, Action.update name,
              [Effect.download name, Effect.download name])

/-- The first loop of `sync_files` over the remote file list, threading
the store and collecting actions and effects. -/
def sync_loop (md5 : Bytes → String) (snap : Store)
    (f1 f2 : String → Option Bytes) :
    Store → List String → Store × List Action × List Effect
  | st, [] => (st, [], [])
  | st, n :: rest =>
      let s := sync_step md5 snap f1 f2 st n
      let r := sync_loop md5 snap f1 f2 s.1 rest
      (r.1, s.2.1 :: r.2.1, s.2.2 ++ r.2.2)

/-- The delete loop of `sync_files` over `files_to_delete`. -/
def delete_loop : Store → List String → Store × List Effect
  | st, [] => (st, [])
  | st, k :: rest =>
      let r := delete_loop (delKey st k) rest
      (r.1, Effect.del k :: r.2)

/-- Modelled from the spec: the `ReconciliationResult` aggregate the spec
says a completed pass returns (counts plus failed keys with error kinds).
The source never constructs such a value; the type exists to state what
the Python function's return value would have to carry. -/
structure ReconciliationResult where
  created : Nat
  updated : Nat
  deleted : Nat
  skipped : Nat
  failed : Nat
  failures : List (String × String)
deriving DecidableEq

/-- Everything one run of `sync_files` produces: the final store, the
decided per-key actions, the effect trace, and the Python function's
return value. -/
structure RunResult where
  store : Store
  actions : List Action
  events : List Effect
  ret : Option ReconciliationResult
deriving DecidableEq

/-- Body of `sync_files` after the remote listing: the empty-listing
guard, the inventory snapshot (`listing_ok = false` models the swallowed
`list_objects_v2` failure), the per-file loop, the set-difference delete
loop, and the bare `return` (Python `None`) on every path. -/
def sync_pass (md5 : Bytes → String) (remote_files : List String)
    (listing_ok : Bool) (f1 f2 : String → Option Bytes) (st0 : Store) :
    RunResult :=
  if remote_files.isEmpty then
    { store := st0, actions := [], events := [], ret := none }
  else
    let snap := get_s3_files (if listing_ok then some st0 else none)
    let r := sync_loop md5 snap f1 f2 st0 remote_files
    let to_delete := (keysOf snap).filter (fun k => decide (k ∉ remote_files))
    let d := delete_loop r.1 to_delete
    { store := d.1,
      actions := r.2.1 ++ to_delete.map Action.delete,
      events := Effect.listStore :: (r.2.2 ++ d.2 ++ [Effect.printDone]),
      ret := none }

/-- `sync_files`: fetch the remote listing with the default retry
parameters, then run the reconciliation body. -/
def sync_files (md5 : Bytes → String) (env : Nat → FetchResult)
    (listing_ok : Bool) (f1 f2 : String → Option Bytes) (st0 : Store) :
    RunResult :=
  sync_pass md5 (get_remote_files env 3 5).1 listing_ok f1 f2 st0

/-- The action the per-file loop decides for one name, as a function of
the inventory snapshot and the outcome of the check download. -/
def decide_action (md5 : Bytes → String) (snap : Store) (dl : Option Bytes)
    (n : String) : Action :=
  match lookupKey snap n with
  | none => Action.create n
  | some etag =>
      if (file_needs_update md5 dl etag).1 then Action.update n
      else Action.skip n

/-- Whether a name whose check download returned `c` resolves to SKIP:
it is in the snapshot and its digest matches the stored tag. -/
def skip_check (md5 : Bytes → String) (snap : Store) (c : Bytes)
    (n : String) : Bool :=
  match lookupKey snap n with
  | some e => md5 c == stripQuotes e
  | none => false

section Lemmas

variable {md5 : Bytes → String} {snap st st0 : Store}
variable {f1 f2 : String → Option Bytes}

theorem delKey_cons (k' t n : String) (rest : Store) :
    delKey ((k', t) :: rest) n =
      if k' = n then delKey rest n else (k', t) :: delKey rest n := by
  by_cases h : k' = n
  · simp [delKey, List.filter_cons_of_neg, h]
  · simp [delKey, List.filter_cons_of_pos, h]

theorem lookupKey_delKey (st : Store) (n k : String) :
    lookupKey (delKey st n) k = if n = k then none else lookupKey st k := by
  induction st with
  | nil => simp [delKey, lookupKey]
  | cons p rest ih =>
      obtain ⟨k', t⟩ := p
      rw [delKey_cons]
      by_cases h1 : k' = n
      · rw [if_pos h1, ih]
        by_cases h2 : n = k
        · simp [h2]
        · have : ¬ k' = k := fun h => h2 (h1 ▸ h)
          simp [lookupKey, h2, this]
      · rw [if_neg h1]
        by_cases h2 : k' = k
        · have : ¬ n = k := fun h => h1 (by rw [h2, h])
          simp [lookupKey, h2, this]
        · simp only [lookupKey, if_neg h2]
          exact ih

theorem lookupKey_append (s t : Store) (k : String) :
    lookupKey (s ++ t) k =
      match lookupKey s k with
      | some v => some v
      | none => lookupKey t k := by
  induction s with
  | nil => simp [lookupKey]
  | cons p rest ih =>
      obtain ⟨k', v⟩ := p
      by_cases h : k' = k
      · simp [lookupKey, h]
      · simpa [lookupKey, h] using ih

theorem lookupKey_putKey_self (st : Store) (n t : String) :
    lookupKey (putKey st n t) n = some t := by
  rw [putKey, lookupKey_append, lookupKey_delKey]
  simp [lookupKey]

theorem lookupKey_putKey_ne (st : Store) (n t : String) {k : String}
    (h : n ≠ k) : lookupKey (putKey st n t) k = lookupKey st k := by
  rw [putKey, lookupKey_append, lookupKey_delKey]
  simp only [if_neg h]
  cases hl : lookupKey st k with
  | none => simp [lookupKey, h]
  | some v => rfl

theorem lookupKey_map_strip (st : Store) (k : String) :
    lookupKey (st.map (fun p => (p.1, stripQuotes p.2))) k =
      (lookupKey st k).map stripQuotes := by
  induction st with
  | nil => simp [lookupKey]
  | cons p rest ih =>
      obtain ⟨k', v⟩ := p
      by_cases h : k' = k
      · simp [lookupKey, h]
      · simpa [lookupKey, h] using ih

theorem lookupKey_eq_none_of_not_mem (st : Store) {k : String}
    (h : k ∉ keysOf st) : lookupKey st k = none := by
  induction st with
  | nil => rfl
  | cons p rest ih =>
      obtain ⟨k', v⟩ := p
      simp only [keysOf, List.map_cons, List.mem_cons, not_or] at h
      have h1 : ¬ k' = k := fun hk => h.1 hk.symm
      have h2 : k ∉ keysOf rest := h.2
      simp only [lookupKey, if_neg h1]
      exact ih h2

theorem mem_keysOf_of_lookupKey (st : Store) {k : String}
    (h : lookupKey st k ≠ none) : k ∈ keysOf st := by
  by_contra hk
  exact h (lookupKey_eq_none_of_not_mem st hk)

theorem keysOf_map_strip (st : Store) :
    keysOf (st.map (fun p => (p.1, stripQuotes p.2))) = keysOf st := by
  simp [keysOf, List.map_map]

theorem skip_check_eq_true (md5 : Bytes → String) (snap : Store)
    (c : Bytes) (n : String) :
    skip_check md5 snap c n = true ↔
      ∃ e, lookupKey snap n = some e ∧ md5 c = stripQuotes e := by
  unfold skip_check
  cases hl : lookupKey snap n with
  | none => simp
  | some e => simp

theorem sync_step_none_none (md5 : Bytes → String) (snap : Store)
    (f1 f2 : String → Option Bytes) (st : Store) (n : String)
    (hl : lookupKey snap n = none) (hf : f1 n = none) :
    sync_step md5 snap f1 f2 st n = (st, Action.create n, [Effect.download n]) := by
  simp [sync_step, hl, hf]

theorem sync_step_none_some (md5 : Bytes → String) (snap : Store)
    (f1 f2 : String → Option Bytes) (st : Store) (n : String) (c : Bytes)
    (hl : lookupKey snap n = none) (hf : f1 n = some c) :
    sync_step md5 snap f1 f2 st n =
      (putKey st n (md5 c), Action.create n,
        [Effect.download n, Effect.put n c]) := by
  simp [sync_step, hl, hf]

theorem sync_step_eq_skip (md5 : Bytes → String) (snap : Store)
    (f1 f2 : String → Option Bytes) (st : Store) (n etag : String)
    (c : Bytes) (hl : lookupKey snap n = some etag) (hf : f1 n = some c)
    (he : md5 c = stripQuotes etag) :
    sync_step md5 snap f1 f2 st n = (st, Action.skip n, [Effect.download n]) := by
  simp [sync_step, hl, hf, file_needs_update, he]

theorem sync_step_eq_update (md5 : Bytes → String) (snap : Store)
    (f1 f2 : String → Option Bytes) (st : Store) (n etag : String)
    (c : Bytes) (hl : lookupKey snap n = some etag) (hf : f1 n = some c)
    (he : md5 c ≠ stripQuotes etag) :
    sync_step md5 snap f1 f2 st n =
      (putKey st n (md5 c), Action.update n,
        [Effect.download n, Effect.put n c]) := by
  have hb : (md5 c == stripQuotes etag) = false := beq_eq_false_iff_ne.mpr he
  simp [sync_step, hl, hf, file_needs_update, hb]

theorem sync_step_fail_some (md5 : Bytes → String) (snap : Store)
    (f1 f2 : String → Option Bytes) (st : Store) (n etag : String)
    (c : Bytes) (hl : lookupKey snap n = some etag) (hf : f1 n = none)
    (hf2 : f2 n = some c) :
    sync_step md5 snap f1 f2 st n =
      (putKey st n (md5 c), Action.update n,
        [Effect.download n, Effect.download n, Effect.put n c]) := by
  simp [sync_step, hl, hf, file_needs_update, hf2]

theorem sync_step_fail_none (md5 : Bytes → String) (snap : Store)
    (f1 f2 : String → Option Bytes) (st : Store) (n etag : String)
    (hl : lookupKey snap n = some etag) (hf : f1 n = none)
    (hf2 : f2 n = none) :
    sync_step md5 snap f1 f2 st n =
      (st, Action.update n, [Effect.download n, Effect.download n]) := by
  simp [sync_step, hl, hf, file_needs_update, hf2]

theorem sync_step_skip (md5 : Bytes → String) (snap : Store)
    (f1 f2 : String → Option Bytes) (st : Store) (n : String) (c : Bytes)
    (hc : f1 n = some c) (hs : skip_check md5 snap c n = true) :
    sync_step md5 snap f1 f2 st n = (st, Action.skip n, [Effect.download n]) := by
  obtain ⟨e, hl, he⟩ := (skip_check_eq_true md5 snap c n).mp hs
  exact sync_step_eq_skip md5 snap f1 f2 st n e c hl hc he

theorem sync_step_action (md5 : Bytes → String) (snap : Store)
    (f1 f2 : String → Option Bytes) (st : Store) (n : String) :
    (sync_step md5 snap f1 f2 st n).2.1 = decide_action md5 snap (f1 n) n := by
  cases hl : lookupKey snap n with
  | none =>
      cases hf : f1 n with
      | none =>
          rw [sync_step_none_none md5 snap f1 f2 st n hl hf]
          simp [decide_action, hl]
      | some c =>
          rw [sync_step_none_some md5 snap f1 f2 st n c hl hf]
          simp [decide_action, hl]
  | some etag =>
      cases hf : f1 n with
      | none =>
          cases hf2 : f2 n with
          | none =>
              rw [sync_step_fail_none md5 snap f1 f2 st n etag hl hf hf2]
              simp [decide_action, hl, hf, file_needs_update]
          | some c =>
              rw [sync_step_fail_some md5 snap f1 f2 st n etag c hl hf hf2]
              simp [decide_action, hl, hf, file_needs_update]
      | some c =>
          by_cases he : md5 c = stripQuotes etag
          · rw [sync_step_eq_skip md5 snap f1 f2 st n etag c hl hf he]
            simp [decide_action, hl, hf, file_needs_update, he]
          · have hb : (md5 c == stripQuotes etag) = false :=
              beq_eq_false_iff_ne.mpr he
            rw [sync_step_eq_update md5 snap f1 f2 st n etag c hl hf he]
            simp [decide_action, hl, hf, file_needs_update, hb]

theorem sync_step_fst_cases (md5 : Bytes → String) (snap : Store)
    (f1 f2 : String → Option Bytes) (st : Store) (n : String) :
    (sync_step md5 snap f1 f2 st n).1 = st ∨
      ∃ t, (sync_step md5 snap f1 f2 st n).1 = putKey st n t := by
  cases hl : lookupKey snap n with
  | none =>
      cases hf : f1 n with
      | none => rw [sync_step_none_none md5 snap f1 f2 st n hl hf]; exact Or.inl rfl
      | some c =>
          rw [sync_step_none_some md5 snap f1 f2 st n c hl hf]
          exact Or.inr ⟨md5 c, rfl⟩
  | some etag =>
      cases hf : f1 n with
      | none =>
          cases hf2 : f2 n with
          | none =>
              rw [sync_step_fail_none md5 snap f1 f2 st n etag hl hf hf2]
              exact Or.inl rfl
          | some c =>
              rw [sync_step_fail_some md5 snap f1 f2 st n etag c hl hf hf2]
              exact Or.inr ⟨md5 c, rfl⟩
      | some c =>
          by_cases he : md5 c = stripQuotes etag
          · rw [sync_step_eq_skip md5 snap f1 f2 st n etag c hl hf he]
            exact Or.inl rfl
          · rw [sync_step_eq_update md5 snap f1 f2 st n etag c hl hf he]
            exact Or.inr ⟨md5 c, rfl⟩

theorem sync_step_fst_frame (md5 : Bytes → String) (snap : Store)
    (f1 f2 : String → Option Bytes) (st : Store) (n k : String)
    (h : n ≠ k) :
    lookupKey (sync_step md5 snap f1 f2 st n).1 k = lookupKey st k := by
  rcases sync_step_fst_cases md5 snap f1 f2 st n with hc | ⟨t, hc⟩
  · rw [hc]
  · rw [hc, lookupKey_putKey_ne st n t h]

theorem sync_step_fst_some (md5 : Bytes → String) (snap : Store)
    (f1 f2 : String → Option Bytes) (st : Store) (n k : String)
    (h : lookupKey st k ≠ none) :
    lookupKey (sync_step md5 snap f1 f2 st n).1 k ≠ none := by
  rcases sync_step_fst_cases md5 snap f1 f2 st n with hc | ⟨t, hc⟩
  · rw [hc]; exact h
  · rw [hc]
    by_cases hn : n = k
    · subst hn; rw [lookupKey_putKey_self]; exact Option.some_ne_none t
    · rw [lookupKey_putKey_ne st n t hn]; exact h

theorem sync_step_store_of_f1 (md5 : Bytes → String) (snap : Store)
    (f1 f2 : String → Option Bytes) (st : Store) (n : String) (c : Bytes)
    (hc : f1 n = some c) :
    (sync_step md5 snap f1 f2 st n).1 =
      if skip_check md5 snap c n = true then st else putKey st n (md5 c) := by
  cases hl : lookupKey snap n with
  | none =>
      have hsc : skip_check md5 snap c n = false := by
        unfold skip_check; rw [hl]
      rw [sync_step_none_some md5 snap f1 f2 st n c hl hc, hsc]
      simp
  | some etag =>
      by_cases he : md5 c = stripQuotes etag
      · have hsc : skip_check md5 snap c n = true :=
          (skip_check_eq_true md5 snap c n).mpr ⟨etag, hl, he⟩
        rw [sync_step_eq_skip md5 snap f1 f2 st n etag c hl hc he, hsc]
        simp
      · have hsc : skip_check md5 snap c n = false := by
          unfold skip_check; rw [hl]; simp [he]
        rw [sync_step_eq_update md5 snap f1 f2 st n etag c hl hc he, hsc]
        simp

theorem sync_step_events_no_del (md5 : Bytes → String) (snap : Store)
    (f1 f2 : String → Option Bytes) (st : Store) (n : String) (e : Effect)
    (he : e ∈ (sync_step md5 snap f1 f2 st n).2.2) : e.isDel = false := by
  cases hl : lookupKey snap n with
  | none =>
      cases hf : f1 n with
      | none =>
          rw [sync_step_none_none md5 snap f1 f2 st n hl hf] at he
          simp only [List.mem_singleton] at he
          subst he; rfl
      | some c =>
          rw [sync_step_none_some md5 snap f1 f2 st n c hl hf] at he
          rcases List.mem_cons.mp he with rfl | he
          · rfl
          · simp only [List.mem_singleton] at he
            subst he; rfl
  | some etag =>
      cases hf : f1 n with
      | none =>
          cases hf2 : f2 n with
          | none =>
              rw [sync_step_fail_none md5 snap f1 f2 st n etag hl hf hf2] at he
              rcases List.mem_cons.mp he with rfl | he
              · rfl
              · simp only [List.mem_singleton] at he
                subst he; rfl
          | some c =>
              rw [sync_step_fail_some md5 snap f1 f2 st n etag c hl hf hf2] at he
              rcases List.mem_cons.mp he with rfl | he
              · rfl
              · rcases List.mem_cons.mp he with rfl | he
                · rfl
                · simp only [List.mem_singleton] at he
                  subst he; rfl
      | some c =>
          by_cases hq : md5 c = stripQuotes etag
          · rw [sync_step_eq_skip md5 snap f1 f2 st n etag c hl hf hq] at he
            simp only [List.mem_singleton] at he
            subst he; rfl
          · rw [sync_step_eq_update md5 snap f1 f2 st n etag c hl hf hq] at he
            rcases List.mem_cons.mp he with rfl | he
            · rfl
            · simp only [List.mem_singleton] at he
              subst he; rfl

theorem sync_loop_actions (md5 : Bytes → String) (snap : Store)
    (f1 f2 : String → Option Bytes) (names : List String) (st : Store) :
    (sync_loop md5 snap f1 f2 st names).2.1 =
      names.map (fun n => decide_action md5 snap (f1 n) n) := by
  induction names generalizing st with
  | nil => rfl
  | cons n rest ih =>
      simp only [sync_loop, List.map_cons]
      rw [sync_step_action md5 snap f1 f2 st n, ih]

theorem sync_loop_events_no_del (md5 : Bytes → String) (snap : Store)
    (f1 f2 : String → Option Bytes) (names : List String) (st : Store)
    (e : Effect)
    (he : e ∈ (sync_loop md5 snap f1 f2 st names).2.2) : e.isDel = false := by
  induction names generalizing st with
  | nil => simp [sync_loop] at he
  | cons n rest ih =>
      simp only [sync_loop, List.mem_append] at he
      rcases he with he | he
      · exact sync_step_events_no_del md5 snap f1 f2 st n e he
      · exact ih _ he

theorem sync_loop_fst_frame (md5 : Bytes → String) (snap : Store)
    (f1 f2 : String → Option Bytes) (names : List String) (st : Store)
    (k : String) (hk : k ∉ names) :
    lookupKey (sync_loop md5 snap f1 f2 st names).1 k = lookupKey st k := by
  induction names generalizing st with
  | nil => rfl
  | cons n rest ih =>
      have h1 : n ≠ k := by
        intro h
        exact hk (by rw [h]; exact List.mem_cons_self k rest)
      have h2 : k ∉ rest := fun h => hk (List.mem_cons_of_mem n h)
      simp only [sync_loop]
      exact (ih _ h2).trans (sync_step_fst_frame md5 snap f1 f2 st n k h1)

theorem sync_loop_fst_skip (md5 : Bytes → String) (snap : Store)
    (f1 f2 : String → Option Bytes) (names : List String) (st : Store)
    (k : String) (c : Bytes) (hc : f1 k = some c)
    (hs : skip_check md5 snap c k = true) :
    lookupKey (sync_loop md5 snap f1 f2 st names).1 k = lookupKey st k := by
  induction names generalizing st with
  | nil => rfl
  | cons n rest ih =>
      simp only [sync_loop]
      refine (ih _).trans ?_
      by_cases hn : n = k
      · subst hn
        rw [sync_step_skip md5 snap f1 f2 st n c hc hs]
      · exact sync_step_fst_frame md5 snap f1 f2 st n k hn

theorem sync_loop_fst_mem (md5 : Bytes → String) (snap : Store)
    (f1 f2 : String → Option Bytes) (names : List String) (st : Store)
    (k : String) (c : Bytes) (hk : k ∈ names) (hc : f1 k = some c)
    (hs : skip_check md5 snap c k = false) :
    lookupKey (sync_loop md5 snap f1 f2 st names).1 k = some (md5 c) := by
  induction names generalizing st with
  | nil => cases hk
  | cons n rest ih =>
      simp only [sync_loop]
      by_cases hr : k ∈ rest
      · exact ih _ hr
      · have hn : n = k := by
          rcases List.mem_cons.mp hk with h | h
          · exact h.symm
          · exact absurd h hr
        subst hn
        rw [sync_loop_fst_frame md5 snap f1 f2 rest _ n hr,
          sync_step_store_of_f1 md5 snap f1 f2 st n c hc, if_neg (by simp [hs]),
          lookupKey_putKey_self]

theorem sync_loop_fst_some (md5 : Bytes → String) (snap : Store)
    (f1 f2 : String → Option Bytes) (names : List String) (st : Store)
    (k : String) (h : lookupKey st k ≠ none) :
    lookupKey (sync_loop md5 snap f1 f2 st names).1 k ≠ none := by
  induction names generalizing st with
  | nil => exact h
  | cons n rest ih =>
      simp only [sync_loop]
      exact ih _ (sync_step_fst_some md5 snap f1 f2 st n k h)

theorem sync_loop_all_skip (md5 : Bytes → String) (snap : Store)
    (f1 f2 : String → Option Bytes) (names : List String) (st : Store)
    (h : ∀ n ∈ names, ∃ c, f1 n = some c ∧ skip_check md5 snap c n = true) :
    sync_loop md5 snap f1 f2 st names =
      (st, names.map Action.skip, names.map Effect.download) := by
  induction names generalizing st with
  | nil => rfl
  | cons n rest ih =>
      obtain ⟨c, hc, hs⟩ := h n (List.mem_cons_self n rest)
      have hrest := ih st (fun m hm => h m (List.mem_cons_of_mem n hm))
      simp only [sync_loop, List.map_cons]
      rw [sync_step_skip md5 snap f1 f2 st n c hc hs]
      simp [hrest]

theorem delete_loop_snd (ks : List String) (st : Store) :
    (delete_loop st ks).2 = ks.map Effect.del := by
  induction ks generalizing st with
  | nil => rfl
  | cons c rest ih =>
      simp only [delete_loop, List.map_cons]
      rw [ih]

theorem delete_loop_fst_lookup (ks : List String) (st : Store) (k : String) :
    lookupKey (delete_loop st ks).1 k =
      if k ∈ ks then none else lookupKey st k := by
  induction ks generalizing st with
  | nil => simp [delete_loop]
  | cons c rest ih =>
      simp only [delete_loop]
      rw [ih]
      by_cases hr : k ∈ rest
      · simp [hr, List.mem_cons]
      · rw [if_neg hr, lookupKey_delKey]
        by_cases hc : c = k
        · simp [hc, List.mem_cons]
        · have hkc : ¬ k = c := fun h => hc h.symm
          have hmem : k ∉ c :: rest := by simp [List.mem_cons, hkc, hr]
          simp [hc, hkc, hmem]

end Lemmas

theorem lookupKey_ne_none_of_mem (st : Store) {k : String}
    (h : k ∈ keysOf st) : lookupKey st k ≠ none := by
  induction st with
  | nil => cases h
  | cons p rest ih =>
      obtain ⟨k', v⟩ := p
      by_cases hk : k' = k
      · simp [lookupKey, hk]
      · have : k ∈ keysOf rest := by
          rcases List.mem_cons.mp h with h1 | h1
          · exact absurd h1.symm hk
          · exact h1
        simp only [lookupKey, if_neg hk]
        exact ih this

theorem snap_false (st0 : Store) :
    get_s3_files (if (false : Bool) = true then some st0 else none) = [] := rfl

theorem snap_true (st0 : Store) :
    get_s3_files (if (true : Bool) = true then some st0 else none) =
      st0.map (fun p => (p.1, stripQuotes p.2)) := rfl

theorem sync_pass_cons (md5 : Bytes → String) (n : String)
    (rest : List String) (listing_ok : Bool)
    (f1 f2 : String → Option Bytes) (st0 : Store) :
    sync_pass md5 (n :: rest) listing_ok f1 f2 st0 =
      { store := (delete_loop
          (sync_loop md5 (get_s3_files (if listing_ok then some st0 else none))
            f1 f2 st0 (n :: rest)).1
          ((keysOf (get_s3_files (if listing_ok then some st0 else none))).filter
            (fun k => decide (k ∉ n :: rest)))).1,
        actions := (sync_loop md5
            (get_s3_files (if listing_ok then some st0 else none))
            f1 f2 st0 (n :: rest)).2.1 ++
          ((keysOf (get_s3_files (if listing_ok then some st0 else none))).filter
            (fun k => decide (k ∉ n :: rest))).map Action.delete,
        events := Effect.listStore ::
          ((sync_loop md5 (get_s3_files (if listing_ok then some st0 else none))
              f1 f2 st0 (n :: rest)).2.2 ++
            (delete_loop
              (sync_loop md5
                (get_s3_files (if listing_ok then some st0 else none))
                f1 f2 st0 (n :: rest)).1
              ((keysOf (get_s3_files (if listing_ok then some st0 else none))).filter
                (fun k => decide (k ∉ n :: rest)))).2 ++
            [Effect.printDone]),
        ret := none } := rfl

theorem sync_pass_nolist (md5 : Bytes → String) (n : String)
    (rest : List String) (f1 f2 : String → Option Bytes) (st0 : Store) :
    sync_pass md5 (n :: rest) false f1 f2 st0 =
      { store := (sync_loop md5 [] f1 f2 st0 (n :: rest)).1,
        actions := (sync_loop md5 [] f1 f2 st0 (n :: rest)).2.1,
        events := Effect.listStore ::
          ((sync_loop md5 [] f1 f2 st0 (n :: rest)).2.2 ++ [Effect.printDone]),
        ret := none } := by
  rw [sync_pass_cons, snap_false]
  simp [keysOf, delete_loop]

/-- C6 (amended): store-inventory failure degradation. A failed store listing
is swallowed (`get_s3_files` returns the empty mapping) and the pass does not
abort: it proceeds past the inventory call (the head of the event trace is
still the inventory call), treats every remote file as a new CREATE, and
issues no DELETE. -/
theorem store_failure_degradation (md5 : Bytes → String) (R : List String)
    (f1 f2 : String → Option Bytes) (st0 : Store) :
    (sync_pass md5 R false f1 f2 st0).actions = R.map Action.create ∧
    (sync_pass md5 R false f1 f2 st0).events.countP (fun e => e.isDel) = 0 ∧
    (R ≠ [] →
      (sync_pass md5 R false f1 f2 st0).events.head? = some Effect.listStore) := by
  cases R with
  | nil => exact ⟨rfl, rfl, fun h => absurd rfl h⟩
  | cons n rest =>
      rw [sync_pass_nolist]
      refine ⟨?_, ?_, fun _ => rfl⟩
      · rw [sync_loop_actions]
        simp only []
        rfl
      · rw [List.countP_eq_zero]
        intro e he
        simp only [List.mem_cons, List.mem_append, List.mem_singleton] at he
        rcases he with rfl | he | rfl | h0
        · simp [Effect.isDel]
        · simp [sync_loop_events_no_del md5 [] f1 f2 (n :: rest) st0 e he]
        · simp [Effect.isDel]
        · cases h0


theorem decide_action_key (md5 : Bytes → String) (snap : Store)
    (dl : Option Bytes) (n : String) : (decide_action md5 snap dl n).key = n := by
  unfold decide_action
  cases lookupKey snap n with
  | none => rfl
  | some e =>
      by_cases h : (file_needs_update md5 dl e).1 = true
      · simp [h, Action.key]
      · simp [h, Action.key]

theorem decide_action_not_delete (md5 : Bytes → String) (snap : Store)
    (dl : Option Bytes) (n : String) :
    (decide_action md5 snap dl n).isDelete = false := by
  unfold decide_action
  cases lookupKey snap n with
  | none => rfl
  | some e =>
      by_cases h : (file_needs_update md5 dl e).1 = true
      · simp [h, Action.isDelete]
      · simp [h, Action.isDelete]

/-- C10: inventory-failure degradation never deletes. When the store listing
fails and the remote list is nonempty, the pass issues no delete effect at
all, every decided action is a CREATE, and every key present in the store
before the pass is still present afterwards: a store-listing failure can
cause redundant re-uploads but never data removal. -/
theorem no_delete_on_inventory_failure (md5 : Bytes → String) (R : List String)
    (f1 f2 : String → Option Bytes) (st0 : Store) (hne : R ≠ []) :
    (sync_pass md5 R false f1 f2 st0).events.countP (fun e => e.isDel) = 0 ∧
    (∀ a ∈ (sync_pass md5 R false f1 f2 st0).actions, a.isCreate = true) ∧
    (∀ k, lookupKey st0 k ≠ none →
      lookupKey (sync_pass md5 R false f1 f2 st0).store k ≠ none) := by
  cases R with
  | nil => exact absurd rfl hne
  | cons n rest =>
      rw [sync_pass_nolist]
      refine ⟨?_, ?_, ?_⟩
      · rw [List.countP_eq_zero]
        intro e he
        simp only [List.mem_cons, List.mem_append] at he
        rcases he with rfl | he | rfl | h0
        · simp [Effect.isDel]
        · simp [sync_loop_events_no_del md5 [] f1 f2 (n :: rest) st0 e he]
        · simp [Effect.isDel]
        · cases h0
      · intro a ha
        rw [sync_loop_actions] at ha
        simp only [List.mem_map] at ha
        obtain ⟨m, hm, rfl⟩ := ha
        rfl
      · intro k hk
        exact sync_loop_fst_some md5 [] f1 f2 (n :: rest) st0 k hk

/-- C7: action ordering. In every pass the event trace splits into a
delete-free prefix (the CREATE/CHECK phase) followed by a suffix containing
only deletes and the completion marker, and the action list splits into a
delete-free prefix followed by deletes only: every CREATE and CHECK is
executed before any DELETE. -/
theorem deletes_last (md5 : Bytes → String) (R : List String) (lOk : Bool)
    (f1 f2 : String → Option Bytes) (st0 : Store) :
    ∃ A B, (sync_pass md5 R lOk f1 f2 st0).events = A ++ B ∧
      (∀ e ∈ A, e.isDel = false) ∧
      (∀ e ∈ B, e.isDel = true ∨ e = Effect.printDone) ∧
      ∃ xs ys, (sync_pass md5 R lOk f1 f2 st0).actions = xs ++ ys ∧
        (∀ a ∈ xs, a.isDelete = false) ∧ (∀ a ∈ ys, a.isDelete = true) := by
  cases R with
  | nil =>
      refine ⟨[], [], rfl, ?_, ?_, [], [], rfl, ?_, ?_⟩ <;>
        intro x hx <;> cases hx
  | cons n rest =>
      rw [sync_pass_cons]
      generalize hsnap : get_s3_files (if lOk then some st0 else none) = snap
      generalize hL : sync_loop md5 snap f1 f2 st0 (n :: rest) = L
      generalize hD : delete_loop L.1
        ((keysOf snap).filter (fun k => decide (k ∉ n :: rest))) = D
      refine ⟨Effect.listStore :: L.2.2, D.2 ++ [Effect.printDone], by simp, ?_, ?_,
        L.2.1, ((keysOf snap).filter (fun k => decide (k ∉ n :: rest))).map
          Action.delete, rfl, ?_, ?_⟩
      · intro e he
        rcases List.mem_cons.mp he with rfl | he
        · rfl
        · rw [← hL] at he
          exact sync_loop_events_no_del md5 snap f1 f2 (n :: rest) st0 e he
      · intro e he
        rcases List.mem_append.mp he with he | he
        · rw [← hD, delete_loop_snd] at he
          obtain ⟨m, hm, rfl⟩ := List.mem_map.mp he
          exact Or.inl rfl
        · rcases List.mem_cons.mp he with rfl | h0
          · exact Or.inr rfl
          · cases h0
      · intro a ha
        rw [← hL, sync_loop_actions] at ha
        obtain ⟨m, hm, rfl⟩ := List.mem_map.mp ha
        exact decide_action_not_delete md5 snap (f1 m) m
      · intro a ha
        obtain ⟨m, hm, rfl⟩ := List.mem_map.mp ha
        rfl

/-- C8 (amended): no structured result. Every run of the pass returns Python
None — no ReconciliationResult aggregate of counts and failed keys is ever
built — and a completed pass signals completion only through its printed
completion line, modelled as the printDone event. -/
theorem returns_none (md5 : Bytes → String) (R : List String) (lOk : Bool)
    (f1 f2 : String → Option Bytes) (st0 : Store) :
    (sync_pass md5 R lOk f1 f2 st0).ret = none ∧
    (R ≠ [] → Effect.printDone ∈ (sync_pass md5 R lOk f1 f2 st0).events) := by
  cases R with
  | nil => exact ⟨rfl, fun h => absurd rfl h⟩
  | cons n rest =>
      refine ⟨rfl, fun _ => ?_⟩
      rw [sync_pass_cons]
      simp



theorem filter_key_map (g : String → Action) (hg : ∀ n, (g n).key = n)
    (l : List String) (k : String) :
    (l.map g).filter (fun a => a.key == k) =
      (l.filter (fun n => n == k)).map g := by
  induction l with
  | nil => rfl
  | cons n rest ih =>
      simp only [List.map_cons, List.filter_cons, hg n]
      cases hb : (n == k) with
      | true => simp [hb, ih]
      | false => simp [hb, ih]

theorem length_filter_beq_nodup (l : List String) (hl : l.Nodup) (k : String) :
    (l.filter (fun n => n == k)).length = if k ∈ l then 1 else 0 := by
  induction l with
  | nil => simp
  | cons n rest ih =>
      obtain ⟨hn, hrest⟩ := List.nodup_cons.mp hl
      by_cases h : n = k
      · subst h
        rw [List.filter_cons_of_pos (by simp)]
        have h0 : (rest.filter (fun m => m == n)).length = 0 := by
          rw [List.length_eq_zero, List.filter_eq_nil_iff]
          intro a ha
          simp only [beq_iff_eq]
          intro hak
          exact hn (hak ▸ ha)
        simp [h0, List.mem_cons]
      · rw [List.filter_cons_of_neg (by simp [h])]
        rw [ih hrest]
        by_cases hk : k ∈ rest
        · simp [hk, List.mem_cons]
        · have hkn : ¬ k = n := fun hh => h hh.symm
          simp [hk, List.mem_cons, hkn]

/-- C2 (amended): plan coverage and uniqueness. For a nonempty, duplicate-free
remote name list and a store map with duplicate-free keys, the pass emits
exactly one action per key of the union of the remote list and the store
keys, and no action for any key outside that union. -/
theorem plan_coverage_unique (md5 : Bytes → String) (f1 f2 : String → Option Bytes)
    (R : List String) (st0 : Store) (k : String) (hne : R ≠ [])
    (hR : R.Nodup) (hS : (keysOf st0).Nodup) :
    ((sync_pass md5 R true f1 f2 st0).actions.filter
      (fun a => a.key == k)).length =
      if k ∈ R ∨ k ∈ keysOf st0 then 1 else 0 := by
  cases R with
  | nil => exact absurd rfl hne
  | cons n rest =>
      rw [sync_pass_cons, snap_true]
      generalize hsnap : st0.map (fun p => (p.1, stripQuotes p.2)) = snap
      have hkeys : keysOf snap = keysOf st0 := by
        rw [← hsnap]; exact keysOf_map_strip st0
      rw [sync_loop_actions]
      rw [List.filter_append, List.length_append]
      rw [filter_key_map (fun m => decide_action md5 snap (f1 m) m)
        (fun m => decide_action_key md5 snap (f1 m) m) (n :: rest) k]
      rw [filter_key_map Action.delete (fun m => rfl) _ k]
      rw [List.length_map, List.length_map]
      rw [length_filter_beq_nodup (n :: rest) hR k]
      have hdel_nodup : ((keysOf snap).filter
          (fun x => decide (x ∉ n :: rest))).Nodup := by
        rw [hkeys]; exact hS.filter _
      rw [length_filter_beq_nodup _ hdel_nodup k]
      have hmem : (k ∈ (keysOf snap).filter (fun x => decide (x ∉ n :: rest)))
          ↔ (k ∈ keysOf st0 ∧ k ∉ n :: rest) := by
        rw [List.mem_filter, hkeys]
        simp
      by_cases hkR : k ∈ n :: rest
      · have hnd : k ∉ (keysOf snap).filter (fun x => decide (x ∉ n :: rest)) := by
          rw [hmem]; exact fun hc => hc.2 hkR
        rw [if_pos hkR, if_neg hnd, if_pos (Or.inl hkR)]
      · by_cases hkS : k ∈ keysOf st0
        · have hd : k ∈ (keysOf snap).filter (fun x => decide (x ∉ n :: rest)) := by
            rw [hmem]; exact ⟨hkS, hkR⟩
          rw [if_neg hkR, if_pos hd, if_pos (Or.inr hkS)]
        · have hnd : k ∉ (keysOf snap).filter (fun x => decide (x ∉ n :: rest)) := by
            rw [hmem]; exact fun hc => hkS hc.1
          rw [if_neg hkR, if_neg hnd, if_neg (fun hc => Or.elim hc hkR hkS)]


theorem sync_pass_store_inv (md5 : Bytes → String) (n : String)
    (rest : List String) (content : String → Bytes)
    (f1 f2 : String → Option Bytes) (st0 : Store)
    (hf : ∀ k ∈ n :: rest, f1 k = some (content k))
    (hq : ∀ k ∈ n :: rest,
      stripQuotes (stripQuotes (md5 (content k))) = md5 (content k)) :
    (∀ k ∈ n :: rest, ∃ t,
      lookupKey (sync_pass md5 (n :: rest) true f1 f2 st0).store k = some t ∧
        stripQuotes (stripQuotes t) = md5 (content k)) ∧
    (∀ k, k ∉ n :: rest →
      lookupKey (sync_pass md5 (n :: rest) true f1 f2 st0).store k = none) := by
  rw [sync_pass_cons, snap_true]
  generalize hsnap : st0.map (fun p => (p.1, stripQuotes p.2)) = snap
  constructor
  · intro k hk
    have hknotdel : k ∉ (keysOf snap).filter (fun x => decide (x ∉ n :: rest)) := by
      intro hcon
      have hx := (List.mem_filter.mp hcon).2
      simp only [decide_eq_true_eq] at hx
      exact hx hk
    rw [delete_loop_fst_lookup, if_neg hknotdel]
    cases hsc : skip_check md5 snap (content k) k with
    | true =>
        rw [sync_loop_fst_skip md5 snap f1 f2 (n :: rest) st0 k (content k)
          (hf k hk) hsc]
        obtain ⟨e, hle, heq⟩ := (skip_check_eq_true md5 snap (content k) k).mp hsc
        rw [← hsnap, lookupKey_map_strip] at hle
        cases hl0 : lookupKey st0 k with
        | none => rw [hl0] at hle; cases hle
        | some t0 =>
            rw [hl0] at hle
            have he2 : stripQuotes t0 = e := by simpa using hle
            refine ⟨t0, rfl, ?_⟩
            rw [he2]
            exact heq.symm
    | false =>
        rw [sync_loop_fst_mem md5 snap f1 f2 (n :: rest) st0 k (content k)
          hk (hf k hk) hsc]
        exact ⟨md5 (content k), rfl, hq k hk⟩
  · intro k hknot
    by_cases hdel : k ∈ (keysOf snap).filter (fun x => decide (x ∉ n :: rest))
    · rw [delete_loop_fst_lookup, if_pos hdel]
    · rw [delete_loop_fst_lookup, if_neg hdel]
      have hks : k ∉ keysOf snap := by
        intro hmem
        exact hdel (List.mem_filter.mpr ⟨hmem, by simpa using hknot⟩)
      have hsnapnone : lookupKey snap k = none :=
        lookupKey_eq_none_of_not_mem snap hks
      have hst0 : lookupKey st0 k = none := by
        rw [← hsnap, lookupKey_map_strip] at hsnapnone
        cases h0 : lookupKey st0 k with
        | none => rfl
        | some t => rw [h0] at hsnapnone; cases hsnapnone
      rw [sync_loop_fst_frame md5 snap f1 f2 (n :: rest) st0 k hknot]
      exact hst0

theorem sync_pass_noop (md5 : Bytes → String) (n : String)
    (rest : List String) (content : String → Bytes)
    (f1 f2 : String → Option Bytes) (st : Store)
    (hf : ∀ k ∈ n :: rest, f1 k = some (content k))
    (hinv : ∀ k ∈ n :: rest, ∃ t, lookupKey st k = some t ∧
        stripQuotes (stripQuotes t) = md5 (content k))
    (hsub : ∀ k, k ∉ n :: rest → lookupKey st k = none) :
    sync_pass md5 (n :: rest) true f1 f2 st =
      { store := st, actions := (n :: rest).map Action.skip,
        events := Effect.listStore ::
          ((n :: rest).map Effect.download ++ [Effect.printDone]),
        ret := none } := by
  rw [sync_pass_cons, snap_true]
  generalize hsnap : st.map (fun p => (p.1, stripQuotes p.2)) = snap
  have hall : ∀ m ∈ n :: rest, ∃ c, f1 m = some c ∧
      skip_check md5 snap c m = true := by
    intro m hm
    obtain ⟨t, hlt, hqt⟩ := hinv m hm
    refine ⟨content m, hf m hm, ?_⟩
    rw [skip_check_eq_true]
    refine ⟨stripQuotes t, ?_, hqt.symm⟩
    rw [← hsnap, lookupKey_map_strip, hlt]
    rfl
  have htd : (keysOf snap).filter (fun x => decide (x ∉ n :: rest)) = [] := by
    rw [List.filter_eq_nil_iff]
    intro x hx
    simp only [decide_eq_true_eq]
    intro hxnot
    apply lookupKey_ne_none_of_mem snap hx
    rw [← hsnap, lookupKey_map_strip, hsub x hxnot]
    rfl
  rw [sync_loop_all_skip md5 snap f1 f2 (n :: rest) st hall, htd]
  simp [delete_loop]

/-- C9: idempotence. Planning is deterministic (the embedding is a pure
function of its inputs), and when every remote download succeeds with stable
content whose digests carry no surrounding quotes, running the pass a second
time over the store produced by the first run leaves the store unchanged and
resolves every file to SKIP. -/
theorem pass_idempotent (md5 : Bytes → String) (R : List String)
    (content : String → Bytes) (f1 f2 : String → Option Bytes) (st0 : Store)
    (hf : ∀ k ∈ R, f1 k = some (content k))
    (hq : ∀ k ∈ R,
      stripQuotes (stripQuotes (md5 (content k))) = md5 (content k)) :
    sync_pass md5 R true f1 f2 st0 = sync_pass md5 R true f1 f2 st0 ∧
    (sync_pass md5 R true f1 f2
      (sync_pass md5 R true f1 f2 st0).store).store =
      (sync_pass md5 R true f1 f2 st0).store ∧
    ∀ a ∈ (sync_pass md5 R true f1 f2
        (sync_pass md5 R true f1 f2 st0).store).actions, a.isSkip = true := by
  cases R with
  | nil => exact ⟨rfl, rfl, fun a ha => absurd ha (List.not_mem_nil a)⟩
  | cons n rest =>
      obtain ⟨hinv, hsub⟩ :=
        sync_pass_store_inv md5 n rest content f1 f2 st0 hf hq
      have h2 := sync_pass_noop md5 n rest content f1 f2
        (sync_pass md5 (n :: rest) true f1 f2 st0).store hf hinv hsub
      refine ⟨rfl, ?_, ?_⟩
      · rw [h2]
      · rw [h2]
        intro a ha
        simp only [List.mem_map] at ha
        obtain ⟨m, hm, rfl⟩ := ha
        rfl


def FetchResult.isOk : FetchResult → Bool
  | .resp s _ => s == 200
  | .exc => false

theorem get_remote_files_go_no200 (env : Nat → FetchResult)
    (h : ∀ n, (env n).isOk = false) :
    ∀ (r att d : Nat), (get_remote_files_go env att r d).1 = [] := by
  intro r
  induction r with
  | zero => intro att d; rfl
  | succ r ih =>
      intro att d
      cases he : env att with
      | exc =>
          simp only [get_remote_files_go, he]
          by_cases hr : r = 0
          · simp [hr]
          · simp [hr, ih]
      | resp s a =>
          have hs : s ≠ 200 := by
            have hh := h att
            rw [he] at hh
            simpa [FetchResult.isOk] using hh
          simp only [get_remote_files_go, he]
          rw [if_neg hs]
          by_cases h403 : s = 403
          · simp only [h403, if_pos]
            by_cases hr : r = 0
            · simp [hr]
            · simp [hr, ih]
          · simp [h403]

/-- C1: delete-safety. When every listing attempt fails (no attempt returns
status 200), `get_remote_files` yields an empty list and `sync_files` returns
before touching the store: no inventory call, no planning, no action, no
effect, and the store is unchanged. -/
theorem delete_safety_on_listing_failure (md5 : Bytes → String) (env : Nat → FetchResult)
    (listing_ok : Bool) (f1 f2 : String → Option Bytes) (st0 : Store)
    (h : ∀ n, (env n).isOk = false) :
    (get_remote_files env 3 5).1 = [] ∧
    sync_files md5 env listing_ok f1 f2 st0 =
      { store := st0, actions := [], events := [], ret := none } := by
  have hemp : (get_remote_files env 3 5).1 = [] :=
    get_remote_files_go_no200 env h 3 0 5
  refine ⟨hemp, ?_⟩
  unfold sync_files
  rw [hemp]
  rfl

/-- C4: 403 backoff schedule. When every listing attempt returns HTTP 403,
the lister makes exactly 3 attempts (the default budget) with waits of 5 then
10 seconds (base 5, doubled after each denied non-final attempt) and a
root-page warm-up before each retried attempt, then reports failure by
returning an empty list. -/
theorem backoff_schedule_403 (env : Nat → FetchResult)
    (h : ∀ n, ∃ a, env n = FetchResult.resp 403 a) :
    get_remote_files env 3 5 =
      ([], [LEvent.attempt 0, LEvent.sleep 5, LEvent.warmup,
            LEvent.attempt 1, LEvent.sleep 10, LEvent.warmup,
            LEvent.attempt 2]) := by
  obtain ⟨a0, h0⟩ := h 0
  obtain ⟨a1, h1⟩ := h 1
  obtain ⟨a2, h2⟩ := h 2
  simp [get_remote_files, get_remote_files_go, h0, h1, h2]

/-- C5 (amended): non-denial fetch errors. Request exceptions are retried up
to the same budget, waiting the current delay (not doubled) with no root-page
warm-up; any other non-200, non-403 status makes the lister return an empty
list immediately after that single attempt, with no retry. -/
theorem non_denial_error_behavior :
    (∀ env : Nat → FetchResult, (∀ n, env n = FetchResult.exc) →
      get_remote_files env 3 5 =
        ([], [LEvent.attempt 0, LEvent.sleep 5, LEvent.attempt 1,
              LEvent.sleep 5, LEvent.attempt 2])) ∧
    (∀ (env : Nat → FetchResult) (s : Nat) (a : List (Option String)),
      s ≠ 200 → s ≠ 403 → env 0 = FetchResult.resp s a →
      get_remote_files env 3 5 = ([], [LEvent.attempt 0])) := by
  constructor
  · intro env h
    simp [get_remote_files, get_remote_files_go, h 0, h 1, h 2]
  · intro env s a hs h403 h0
    simp [get_remote_files, get_remote_files_go, h0, hs, h403]

/-- C3: hash-driven check resolution. For a file present in the inventory
snapshot: a digest matching the quote-stripped tag resolves to SKIP with no
upload; a differing digest resolves to UPDATE reusing the already-downloaded
bytes (one download event, and the put body is exactly those bytes); a failed
check download resolves to UPDATE with a second full fetch at upload time
(two download events), uploading only if the second fetch succeeds. -/
theorem check_resolution (md5 : Bytes → String) (snap : Store)
    (f1 f2 : String → Option Bytes) (st : Store) (n etag : String)
    (hsnap : lookupKey snap n = some etag) :
    sync_step md5 snap f1 f2 st n =
      (match f1 n with
      | some c =>
          if md5 c = stripQuotes etag then
            (st, Action.skip n, [Effect.download n])
          else
            (putKey st n (md5 c), Action.update n,
              [Effect.download n, Effect.put n c])
      | none =>
          match f2 n with
          | some c2 =>
              (putKey st n (md5 c2), Action.update n,
                [Effect.download n, Effect.download n, Effect.put n c2])
          | none =>
              (st, Action.update n, [Effect.download n, Effect.download n])) := by
  cases hf : f1 n with
  | some c =>
      by_cases he : md5 c = stripQuotes etag
      · rw [sync_step_eq_skip md5 snap f1 f2 st n etag c hsnap hf he]
        simp [he]
      · rw [sync_step_eq_update md5 snap f1 f2 st n etag c hsnap hf he]
        simp [he]
  | none =>
      cases hf2 : f2 n with
      | some c2 =>
          rw [sync_step_fail_some md5 snap f1 f2 st n etag c2 hsnap hf hf2]
      | none =>
          rw [sync_step_fail_none md5 snap f1 f2 st n etag hsnap hf hf2]

/-- C2 counterexample: a remote listing that repeats `a.txt` makes the pass
emit two actions for that one key. -/
theorem plan_coverage_counterexample :
    ((sync_pass (fun _ => "h3") ["a.txt", "a.txt"] true (fun _ => some [1])
      (fun _ => none) []).actions.filter (fun a => a.key == "a.txt")).length
      = 2 := by
  decide

/-- C5 counterexample: a 500 response on the first listing attempt is not
retried — the lister returns an empty list after exactly one attempt. -/
theorem non_denial_retry_counterexample :
    get_remote_files (fun _ => FetchResult.resp 500 []) 3 5 =
      ([], [LEvent.attempt 0]) := by
  decide

/-- C6 counterexample: with a failed store listing the pass does not abort —
it continues and executes a CREATE upload against the store. -/
theorem store_failure_counterexample :
    (sync_pass (fun _ => "h4") ["a.txt"] false (fun _ => some [1, 2])
      (fun _ => none) [("old.txt", "t4")]).events =
      [Effect.listStore, Effect.download "a.txt", Effect.put "a.txt" [1, 2],
        Effect.printDone] := by
  decide

/-- C8 counterexample: a completed pass — its completion line was printed,
and its one remote file even failed to download — still returns None rather
than a populated result aggregate. -/
theorem no_result_counterexample :
    (sync_pass (fun _ => "h5") ["a.txt"] true (fun _ => none) (fun _ => none)
      []).ret = none ∧
    Effect.printDone ∈ (sync_pass (fun _ => "h5") ["a.txt"] true
      (fun _ => none) (fun _ => none) []).events := by
  decide

/-- C1 witness: an all-403 upstream at a concrete store. -/
theorem delete_safety_on_listing_failure_witness :
    (get_remote_files (fun _ => FetchResult.resp 403 []) 3 5).1 = [] ∧
    sync_files (fun _ => "d41") (fun _ => FetchResult.resp 403 []) true
      (fun _ => none) (fun _ => none) [("c.txt", "t1")] =
      { store := [("c.txt", "t1")], actions := [], events := [], ret := none } :=
  delete_safety_on_listing_failure (fun _ => "d41")
    (fun _ => FetchResult.resp 403 []) true (fun _ => none) (fun _ => none)
    [("c.txt", "t1")] (fun _ => rfl)

/-- C2 witness: one remote file, one stray store key, counted at the stray
key. -/
theorem plan_coverage_unique_witness :
    ((sync_pass (fun _ => "h1") ["a.txt"] true (fun _ => some [1])
      (fun _ => none) [("c.txt", "t2")]).actions.filter
        (fun a => a.key == "c.txt")).length =
      if "c.txt" ∈ ["a.txt"] ∨ "c.txt" ∈ keysOf [("c.txt", "t2")] then 1
      else 0 :=
  plan_coverage_unique (fun _ => "h1") (fun _ => some [1]) (fun _ => none)
    ["a.txt"] [("c.txt", "t2")] "c.txt" (by decide) (by decide) (by decide)

/-- C3 witness: a store entry whose tag matches the downloaded digest
resolves to SKIP with a single download and no upload. -/
theorem check_resolution_witness :
    sync_step (fun b => if b = [1] then "x9" else "y9") [("a.txt", "x9")]
      (fun _ => some [1]) (fun _ => none) [] "a.txt" =
      ([], Action.skip "a.txt", [Effect.download "a.txt"]) :=
  check_resolution (fun b => if b = [1] then "x9" else "y9") [("a.txt", "x9")]
    (fun _ => some [1]) (fun _ => none) [] "a.txt" "x9" rfl

/-- C4 witness: the concrete all-403 upstream. -/
theorem backoff_schedule_403_witness :
    get_remote_files (fun _ => FetchResult.resp 403 []) 3 5 =
      ([], [LEvent.attempt 0, LEvent.sleep 5, LEvent.warmup,
            LEvent.attempt 1, LEvent.sleep 10, LEvent.warmup,
            LEvent.attempt 2]) :=
  backoff_schedule_403 (fun _ => FetchResult.resp 403 []) (fun _ => ⟨[], rfl⟩)

/-- C9 witness: one remote file with stable content, starting from an empty
store. -/
theorem pass_idempotent_witness :
    sync_pass (fun _ => "m0") ["a.txt"] true (fun _ => some [7])
      (fun _ => none) [] =
      sync_pass (fun _ => "m0") ["a.txt"] true (fun _ => some [7])
        (fun _ => none) [] ∧
    (sync_pass (fun _ => "m0") ["a.txt"] true (fun _ => some [7])
      (fun _ => none)
      (sync_pass (fun _ => "m0") ["a.txt"] true (fun _ => some [7])
        (fun _ => none) []).store).store =
      (sync_pass (fun _ => "m0") ["a.txt"] true (fun _ => some [7])
        (fun _ => none) []).store ∧
    ∀ a ∈ (sync_pass (fun _ => "m0") ["a.txt"] true (fun _ => some [7])
        (fun _ => none)
        (sync_pass (fun _ => "m0") ["a.txt"] true (fun _ => some [7])
          (fun _ => none) []).store).actions, a.isSkip = true :=
  pass_idempotent (fun _ => "m0") ["a.txt"] (fun _ => [7]) (fun _ => some [7])
    (fun _ => none) [] (by decide) (by decide)

/-- C10 witness: a failed store listing with one remote file and one
pre-existing store key. -/
theorem no_delete_on_inventory_failure_witness :
    (sync_pass (fun _ => "h2") ["b.txt"] false (fun _ => some [2])
      (fun _ => none) [("c.txt", "t3")]).events.countP (fun e => e.isDel)
      = 0 ∧
    (∀ a ∈ (sync_pass (fun _ => "h2") ["b.txt"] false (fun _ => some [2])
      (fun _ => none) [("c.txt", "t3")]).actions, a.isCreate = true) ∧
    (∀ k, lookupKey [("c.txt", "t3")] k ≠ none →
      lookupKey (sync_pass (fun _ => "h2") ["b.txt"] false (fun _ => some [2])
        (fun _ => none) [("c.txt", "t3")]).store k ≠ none) :=
  no_delete_on_inventory_failure (fun _ => "h2") ["b.txt"] (fun _ => some [2])
    (fun _ => none) [("c.txt", "t3")] (by decide)

end BlsSync
